import Mathlib

/-!
Shallow embedding of the FSRS scheduler in `src/suca/utils/fsrs.py`.

Python floats are modelled as real numbers, Python `int` as `ℤ`, and
`datetime` values as integer timestamps counted in seconds, so that a
`timedelta`'s `.days` attribute is floor division of the difference by
86400 (Python normalises timedeltas with `0 <= seconds < 86400`, i.e.
`.days` floors).  The random draw `random.randint(-fuzz_range, fuzz_range)`
performed by `_next_interval` when fuzz is enabled is modelled by an
oracle value supplied as an explicit argument and clamped into the range
the library guarantees.
-/

namespace Suca

/-- Python `int(x)` applied to a float: truncation toward zero. -/
noncomputable def pyInt (x : ℝ) : ℤ := if 0 ≤ x then ⌊x⌋ else ⌈x⌉

/-- Number of seconds per day; `timedelta(days = n)` adds `n * 86400`. -/
def secPerDay : ℤ := 86400

/-- The `.days` attribute of the `timedelta` between two timestamps:
floor division of the difference in seconds by 86400. -/
def tdDays (delta : ℤ) : ℤ := Int.fdiv delta secPerDay

/-- User rating for flashcard review (`class Rating(IntEnum)`). -/
inductive Rating
  | again
  | hard
  | good
  | easy
deriving DecidableEq

/-- FSRS Card (`class Card` in `fsrs.py`): flashcard scheduling state. -/
structure Card where
  due : ℤ
  stability : ℝ
  difficulty : ℝ
  elapsed_days : ℤ
  scheduled_days : ℤ
  reps : ℤ
  lapses : ℤ
  state : ℤ
  last_review : Option ℤ

/-- Log entry for a single review session (`class ReviewLog`). -/
structure ReviewLog where
  rating : Rating
  scheduled_days : ℤ
  elapsed_days : ℤ
  review_time : ℤ
  state : ℤ

/-- The FSRS scheduler configuration (`class FSRS.__init__` fields). -/
structure FSRS where
  w : Fin 17 → ℝ
  request_retention : ℝ
  maximum_interval : ℤ
  enable_fuzz : Bool

/-- Default weight vector from `FSRS.__init__`. -/
noncomputable def defaultW : Fin 17 → ℝ :=
  ![0.4, 0.6, 2.4, 5.8, 4.93, 0.94, 0.86, 0.01, 1.49, 0.14,
    0.94, 2.18, 0.05, 0.34, 1.26, 0.29, 2.61]

/-- The default FSRS configuration, with fuzz disabled for determinism. -/
noncomputable def defaultNoFuzz : FSRS :=
  { w := defaultW
    request_retention := 0.9
    maximum_interval := 36500
    enable_fuzz := false }

/-- Retrievability as computed on line 161 of `fsrs.py`:
`pow(1 + card.elapsed_days / (9 * card.stability), -1)`. -/
noncomputable def retrievability (elapsed_days : ℤ) (stability : ℝ) : ℝ :=
  (1 + (elapsed_days : ℝ) / (9 * stability))⁻¹

/-- The rating-indexed initial stability table for New cards (`w[0..3]`). -/
def initialStability (f : FSRS) (r : Rating) : ℝ :=
  match r with
  | .again => f.w 0
  | .hard => f.w 1
  | .good => f.w 2
  | .easy => f.w 3

/-- The rating-indexed stability growth factor table (`w[4..7]`). -/
def stabilityFactor (f : FSRS) (r : Rating) : ℝ :=
  match r with
  | .again => f.w 4
  | .hard => f.w 5
  | .good => f.w 6
  | .easy => f.w 7

/-- The reviewed-card branch of `_calculate_stability`:
`card.stability * (1 + factor * (11 - card.difficulty) * retrievability)`. -/
noncomputable def stabilityUpdate (f : FSRS) (card : Card) (r : Rating) : ℝ :=
  card.stability *
    (1 + stabilityFactor f r * (11 - card.difficulty) *
      retrievability card.elapsed_days card.stability)

/-- `FSRS._calculate_stability`. -/
noncomputable def FSRS.calculateStability (f : FSRS) (card : Card) (r : Rating) : ℝ :=
  if card.state = 0 then
    initialStability f r
  else
    stabilityUpdate f card r

/-- `FSRS._next_interval`.  `fuzz` is the oracle standing for the value
drawn by `random.randint(-fuzz_range, fuzz_range)`; it is clamped into
that range, which is exactly the set of values `randint` can return. -/
noncomputable def FSRS.nextInterval (f : FSRS) (fuzz : ℤ) (card : Card) : ℤ :=
  let interval1 : ℝ := card.stability * (f.request_retention ^ ((1 : ℝ) / 9) - 1)
  let interval2 : ℝ := min interval1 (f.maximum_interval : ℝ)
  let interval3 : ℤ := max 1 (pyInt interval2)
  let interval4 : ℤ :=
    if f.enable_fuzz = true ∧ 2 < interval3 then
      let fuzz_range : ℤ := max 1 (pyInt ((interval3 : ℝ) * 0.05))
      interval3 + max (-fuzz_range) (min fuzz_range fuzz)
    else interval3
  max 1 interval4

/-- `FSRS._next_card`: the next card state for one rating.  The input
card is deep-copied, so only the fields assigned in the rating's branch
(and `due`/`state` at the end) change. -/
noncomputable def FSRS.nextCard (f : FSRS) (fuzz : ℤ) (card : Card) (r : Rating)
    (now : ℤ) : Card :=
  let nc : Card :=
    match r with
    | .again =>
        { card with
          lapses := card.lapses + 1
          scheduled_days := 1
          stability := f.calculateStability card .again
          difficulty := min 10 (card.difficulty + 1) }
    | .hard =>
        { card with
          scheduled_days := max 1 (pyInt ((card.scheduled_days : ℝ) * 1.2))
          stability := f.calculateStability card .hard }
    | .good =>
        { card with
          scheduled_days := f.nextInterval fuzz card
          stability := f.calculateStability card .good }
    | .easy =>
        { card with
          scheduled_days := pyInt ((f.nextInterval fuzz card : ℝ) * 1.3)
          stability := f.calculateStability card .easy
          difficulty := max 1 (card.difficulty - 1) }
  { nc with due := now + nc.scheduled_days * secPerDay, state := 2 }

/-- The `elapsed_days` value `FSRS.repeat` assigns to the input card:
`0` for a New card, else `(now - card.last_review).days` when
`last_review` is set (truthy) and `0` otherwise.  No clamping occurs. -/
def repeatElapsed (card : Card) (now : ℤ) : ℤ :=
  if card.state = 0 then 0
  else
    match card.last_review with
    | some lr => tdDays (now - lr)
    | none => 0

/-- The state of the caller's card object after `FSRS.repeat` returns:
the method mutates `elapsed_days`, `last_review` and `reps` in place
before the per-rating loop (which only works on deep copies). -/
def repeatMutated (card : Card) (now : ℤ) : Card :=
  { card with
    elapsed_days := repeatElapsed card now
    last_review := some now
    reps := card.reps + 1 }

/-- The card component of the entry `FSRS.repeat` returns for rating `r`:
`_next_card` applied to the mutated input card.  `fz` is the fuzz oracle,
one independent draw per rating. -/
noncomputable def FSRS.repeatCard (f : FSRS) (fz : Rating → ℤ) (card : Card)
    (now : ℤ) (r : Rating) : Card :=
  f.nextCard (fz r) (repeatMutated card now) r now

/-- The review-log component of the entry `FSRS.repeat` returns for
rating `r`. -/
noncomputable def FSRS.repeatLog (f : FSRS) (fz : Rating → ℤ) (card : Card)
    (now : ℤ) (r : Rating) : ReviewLog :=
  { rating := r
    scheduled_days := (f.repeatCard fz card now r).scheduled_days
    elapsed_days := (repeatMutated card now).elapsed_days
    review_time := now
    state := (f.repeatCard fz card now r).state }

/-- `FSRS.repeat` as a whole: the post-call state of the caller's card
object together with the returned dictionary. -/
noncomputable def FSRS.repeatAll (f : FSRS) (fz : Rating → ℤ) (card : Card)
    (now : ℤ) : Card × (Rating → Card × ReviewLog) :=
  (repeatMutated card now, fun r => (f.repeatCard fz card now r, f.repeatLog fz card now r))

/-! ### Helper lemmas -/

/-- Truncation of a non-positive real is non-positive. -/
theorem pyInt_nonpos {x : ℝ} (h : x ≤ 0) : pyInt x ≤ 0 := by
  unfold pyInt
  split
  · exact Int.floor_nonpos h
  · exact Int.ceil_le.mpr (by exact_mod_cast h)

/-- On non-negative reals the Python truncation is the floor. -/
theorem pyInt_of_nonneg {x : ℝ} (h : 0 ≤ x) : pyInt x = ⌊x⌋ := if_pos h

/-- Truncation of a real that is at least one is at least one. -/
theorem one_le_pyInt {x : ℝ} (h : 1 ≤ x) : 1 ≤ pyInt x := by
  rw [pyInt_of_nonneg (le_trans zero_le_one h)]
  exact Int.le_floor.mpr (by exact_mod_cast h)

/-- With any retention target strictly between 0 and 1 and a non-negative
stability, the base-interval expression of `_next_interval` is
non-positive, so the whole function returns 1 (fuzz disabled; the fuzz
branch is unreachable anyway since the pre-fuzz interval is 1, not > 2). -/
theorem nextInterval_eq_one (f : FSRS) (fuzz : ℤ) (card : Card)
    (h0 : 0 < f.request_retention) (h1 : f.request_retention < 1)
    (hs : 0 ≤ card.stability) :
    f.nextInterval fuzz card = 1 := by
  have hrp : f.request_retention ^ ((1 : ℝ) / 9) < 1 :=
    Real.rpow_lt_one h0.le h1 (by norm_num)
  have hbase : card.stability * (f.request_retention ^ ((1 : ℝ) / 9) - 1) ≤ 0 :=
    mul_nonpos_iff.mpr (Or.inl ⟨hs, by linarith⟩)
  unfold FSRS.nextInterval
  have hmin :
      min (card.stability * (f.request_retention ^ ((1 : ℝ) / 9) - 1))
        ((f.maximum_interval : ℝ)) ≤ 0 :=
    le_trans (min_le_left _ _) hbase
  have hpy := pyInt_nonpos hmin
  have h3 :
      max 1 (pyInt (min (card.stability * (f.request_retention ^ ((1 : ℝ) / 9) - 1))
        ((f.maximum_interval : ℝ)))) = 1 := by
    exact max_eq_left (by omega)
  simp only [h3]
  norm_num

/-- Evaluation rule for `pyInt` at a concrete non-negative value. -/
theorem pyInt_eq {x : ℝ} {n : ℤ} (h0 : 0 ≤ x) (h1 : (n : ℝ) ≤ x) (h2 : x < n + 1) :
    pyInt x = n := by
  rw [pyInt_of_nonneg h0]
  exact Int.floor_eq_iff.mpr ⟨h1, h2⟩

/-- A sample already-reviewed card used to witness the universally
quantified theorems at a concrete input. -/
noncomputable def sampleCard : Card :=
  { due := 0
    stability := 2.4
    difficulty := 3
    elapsed_days := 0
    scheduled_days := 4
    reps := 1
    lapses := 0
    state := 2
    last_review := some 0 }

/-- A freshly created card (`Card()` defaults): state New, all numeric
fields zero, no last review. -/
noncomputable def newCard : Card :=
  { due := 0
    stability := 0
    difficulty := 0
    elapsed_days := 0
    scheduled_days := 0
    reps := 0
    lapses := 0
    state := 0
    last_review := none }

/-- The reviewed card of concrete scenario 3: stability 10, difficulty 5,
previous interval 8 days, last reviewed 5 days before `now = 0`. -/
noncomputable def hardCard : Card :=
  { due := 0
    stability := 10
    difficulty := 5
    elapsed_days := 5
    scheduled_days := 8
    reps := 3
    lapses := 0
    state := 2
    last_review := some (-432000) }

/-- A reviewed card whose last review lies one hour in the future of
`now = 0` (clock skew). -/
noncomputable def skewCard : Card :=
  { due := 0
    stability := 5
    difficulty := 5
    elapsed_days := 0
    scheduled_days := 3
    reps := 2
    lapses := 0
    state := 2
    last_review := some 3600 }

/-- A minimal reviewed card: stability 1, difficulty 1, reviewed just now. -/
noncomputable def c8Card : Card :=
  { due := 0
    stability := 1
    difficulty := 1
    elapsed_days := 0
    scheduled_days := 1
    reps := 1
    lapses := 0
    state := 2
    last_review := some 0 }

/-- A caller configuration whose weight vector is constantly -5: every
stability growth factor is negative. -/
noncomputable def negFSRS : FSRS :=
  { w := fun _ => -5
    request_retention := 0.9
    maximum_interval := 36500
    enable_fuzz := false }

/-- A caller configuration whose weight vector is constantly 1: every
stability growth factor is non-negative. -/
noncomputable def onesFSRS : FSRS :=
  { w := fun _ => 1
    request_retention := 0.9
    maximum_interval := 36500
    enable_fuzz := false }

/-- `_next_interval` always returns at least 1: its last line is
`max(1, interval)`. -/
theorem one_le_nextInterval (f : FSRS) (fuzz : ℤ) (card : Card) :
    1 ≤ f.nextInterval fuzz card := by
  unfold FSRS.nextInterval
  exact le_max_left _ _

/-- Retrievability is strictly positive for positive stability and
non-negative elapsed days. -/
theorem retrievability_pos {e : ℤ} {s : ℝ} (hs : 0 < s) (he : 0 ≤ e) :
    0 < retrievability e s := by
  have h9s : (0 : ℝ) < 9 * s := by positivity
  have hd : (0 : ℝ) ≤ (e : ℝ) / (9 * s) := div_nonneg (by exact_mod_cast he) h9s.le
  unfold retrievability
  exact inv_pos.mpr (by linarith)

/-- Retrievability is at most one for positive stability and
non-negative elapsed days. -/
theorem retrievability_le_one {e : ℤ} {s : ℝ} (hs : 0 < s) (he : 0 ≤ e) :
    retrievability e s ≤ 1 := by
  have h9s : (0 : ℝ) < 9 * s := by positivity
  have hd : (0 : ℝ) ≤ (e : ℝ) / (9 * s) := div_nonneg (by exact_mod_cast he) h9s.le
  have hD : (1 : ℝ) ≤ 1 + (e : ℝ) / (9 * s) := by linarith
  exact inv_le_one hD

/-! ### Claims -/

/-- Claim C1: with `0 < request_retention < 1` and fuzz disabled, the
base-interval expression `stability * (request_retention^(1/9) - 1)` is
non-positive for every `stability ≥ 0`, so `_next_interval` always
returns exactly 1; hence Good schedules exactly 1 day and Easy schedules
`int(1 * 1.3) = 1` day, regardless of the card's stability. -/
theorem c1_good_easy_always_one_day (f : FSRS) (fuzz : ℤ) (card : Card) (now : ℤ)
    (h0 : 0 < f.request_retention) (h1 : f.request_retention < 1)
    (hs : 0 ≤ card.stability) (_hf : f.enable_fuzz = false) :
    card.stability * (f.request_retention ^ ((1 : ℝ) / 9) - 1) ≤ 0 ∧
    f.nextInterval fuzz card = 1 ∧
    (f.nextCard fuzz card .good now).scheduled_days = 1 ∧
    (f.nextCard fuzz card .easy now).scheduled_days = 1 := by
  have hrp : f.request_retention ^ ((1 : ℝ) / 9) < 1 :=
    Real.rpow_lt_one h0.le h1 (by norm_num)
  have hbase : card.stability * (f.request_retention ^ ((1 : ℝ) / 9) - 1) ≤ 0 :=
    mul_nonpos_iff.mpr (Or.inl ⟨hs, by linarith⟩)
  have hni : f.nextInterval fuzz card = 1 := nextInterval_eq_one f fuzz card h0 h1 hs
  refine ⟨hbase, hni, ?_, ?_⟩
  · simp [FSRS.nextCard]
    exact hni
  · simp [FSRS.nextCard, hni]
    exact pyInt_eq (by norm_num) (by norm_num) (by norm_num)

/-- Witness for C1 at the default configuration with fuzz disabled and a
concrete reviewed card of stability 2.4. -/
theorem c1_witness :
    0 < defaultNoFuzz.request_retention ∧ defaultNoFuzz.request_retention < 1 ∧
    0 ≤ sampleCard.stability ∧ defaultNoFuzz.enable_fuzz = false ∧
    (defaultNoFuzz.nextCard 0 sampleCard .good 0).scheduled_days = 1 ∧
    (defaultNoFuzz.nextCard 0 sampleCard .easy 0).scheduled_days = 1 := by
  have h0 : 0 < defaultNoFuzz.request_retention := by norm_num [defaultNoFuzz]
  have h1 : defaultNoFuzz.request_retention < 1 := by norm_num [defaultNoFuzz]
  have hs : 0 ≤ sampleCard.stability := by norm_num [sampleCard]
  have hf : defaultNoFuzz.enable_fuzz = false := rfl
  have h := c1_good_easy_always_one_day defaultNoFuzz 0 sampleCard 0 h0 h1 hs hf
  exact ⟨h0, h1, hs, hf, h.2.2.1, h.2.2.2⟩

/-- Claim C9: for every stability > 0 the retrievability value
`(1 + elapsed_days / (9 * stability))^-1` satisfies `0 < R ≤ 1` for all
`elapsed_days ≥ 0`, equals exactly 1 at `elapsed_days = 0`, and is
strictly decreasing in `elapsed_days` for fixed stability. -/
theorem c9_retrievability_bounds (s : ℝ) (hs : 0 < s) :
    (∀ e : ℤ, 0 ≤ e → 0 < retrievability e s ∧ retrievability e s ≤ 1) ∧
    retrievability 0 s = 1 ∧
    (∀ e1 e2 : ℤ, 0 ≤ e1 → e1 < e2 →
      retrievability e2 s < retrievability e1 s) := by
  have h9s : (0 : ℝ) < 9 * s := by positivity
  refine ⟨?_, ?_, ?_⟩
  · intro e he
    have hd : (0 : ℝ) ≤ (e : ℝ) / (9 * s) :=
      div_nonneg (by exact_mod_cast he) h9s.le
    have hD : (1 : ℝ) ≤ 1 + (e : ℝ) / (9 * s) := by linarith
    constructor
    · exact inv_pos.mpr (by linarith)
    · exact inv_le_one hD
  · simp [retrievability]
  · intro e1 e2 he1 hlt
    have h12 : ((e1 : ℝ)) / (9 * s) < ((e2 : ℝ)) / (9 * s) :=
      (div_lt_div_right h9s).mpr (by exact_mod_cast hlt)
    have hd1 : (0 : ℝ) ≤ (e1 : ℝ) / (9 * s) :=
      div_nonneg (by exact_mod_cast he1) h9s.le
    have hpos : (0 : ℝ) < 1 + (e1 : ℝ) / (9 * s) := by linarith
    have hD : 1 + (e1 : ℝ) / (9 * s) < 1 + (e2 : ℝ) / (9 * s) := by linarith
    simpa [retrievability] using inv_lt_inv_of_lt hpos hD

/-- Witness for C9 at stability 1 and elapsed days 0 and 3. -/
theorem c9_witness :
    (0 : ℝ) < 1 ∧
    (0 < retrievability 3 1 ∧ retrievability 3 1 ≤ 1) ∧
    retrievability 0 1 = 1 ∧
    retrievability 3 1 < retrievability 0 1 := by
  have h := c9_retrievability_bounds 1 (by norm_num)
  exact ⟨by norm_num, h.1 3 (by norm_num), h.2.1,
    h.2.2 0 3 (by norm_num) (by norm_num)⟩

/-- Claim C10: for every card, rating and now, the card returned by a
review has `reps' = reps + 1`, `last_review' = now`,
`scheduled_days' ≥ 1`, `due' = now + scheduled_days'` days, and hence
`due' ≥ last_review'`. -/
theorem c10_review_postconditions (f : FSRS) (fz : Rating → ℤ) (card : Card)
    (now : ℤ) (r : Rating) :
    (f.repeatCard fz card now r).reps = card.reps + 1 ∧
    (f.repeatCard fz card now r).last_review = some now ∧
    1 ≤ (f.repeatCard fz card now r).scheduled_days ∧
    (f.repeatCard fz card now r).due
      = now + (f.repeatCard fz card now r).scheduled_days * secPerDay ∧
    now ≤ (f.repeatCard fz card now r).due := by
  have hsched : 1 ≤ (f.repeatCard fz card now r).scheduled_days := by
    cases r with
    | again => norm_num [FSRS.repeatCard, FSRS.nextCard]
    | hard =>
        show 1 ≤ max 1 (pyInt (((repeatMutated card now).scheduled_days : ℝ) * 1.2))
        exact le_max_left _ _
    | good =>
        show 1 ≤ f.nextInterval (fz .good) (repeatMutated card now)
        exact one_le_nextInterval _ _ _
    | easy =>
        show 1 ≤ pyInt ((f.nextInterval (fz .easy) (repeatMutated card now) : ℝ) * 1.3)
        apply one_le_pyInt
        have h1 : (1 : ℝ) ≤ (f.nextInterval (fz .easy) (repeatMutated card now) : ℝ) := by
          exact_mod_cast one_le_nextInterval f (fz .easy) (repeatMutated card now)
        nlinarith
  have hdue : (f.repeatCard fz card now r).due
      = now + (f.repeatCard fz card now r).scheduled_days * secPerDay := by
    cases r <;> rfl
  refine ⟨?_, ?_, hsched, hdue, ?_⟩
  · cases r <;> rfl
  · cases r <;> rfl
  · rw [hdue]
    have : (86400 : ℤ) ≤ (f.repeatCard fz card now r).scheduled_days * secPerDay := by
      have := hsched
      unfold secPerDay
      nlinarith
    omega

/-- Counterexample to claim C2: the first review of a New card (whose
difficulty is the 0.0 sentinel) with rating Good leaves difficulty at 0,
which is outside [1, 10]. -/
theorem c2_counterexample :
    (defaultNoFuzz.repeatCard (fun _ => 0) newCard 0 .good).difficulty = 0 ∧
    ¬(1 ≤ (defaultNoFuzz.repeatCard (fun _ => 0) newCard 0 .good).difficulty) := by
  have h : (defaultNoFuzz.repeatCard (fun _ => 0) newCard 0 .good).difficulty = 0 := by
    show newCard.difficulty = 0
    norm_num [newCard]
  exact ⟨h, by rw [h]; norm_num⟩

/-- Claim C2 as amended: a review never raises an error (the operation is
total), and difficulty stays in [1, 10] provided the input card's
difficulty already lies in [1, 10] — Again clamps at 10, Easy clamps at
1, Hard and Good leave difficulty unchanged.  (The unamended claim fails
only on cards whose difficulty is already out of range, e.g. a New card
with the 0.0 sentinel reviewed with Hard or Good.) -/
theorem c2_amended_difficulty_bounds (f : FSRS) (fz : Rating → ℤ) (card : Card)
    (now : ℤ) (r : Rating) (h1 : 1 ≤ card.difficulty) (h10 : card.difficulty ≤ 10) :
    1 ≤ (f.repeatCard fz card now r).difficulty ∧
    (f.repeatCard fz card now r).difficulty ≤ 10 := by
  cases r with
  | again =>
      constructor
      · show (1 : ℝ) ≤ min 10 (card.difficulty + 1)
        exact le_min (by norm_num) (by linarith)
      · show min 10 (card.difficulty + 1) ≤ (10 : ℝ)
        exact min_le_left _ _
  | hard => exact ⟨h1, h10⟩
  | good => exact ⟨h1, h10⟩
  | easy =>
      constructor
      · show (1 : ℝ) ≤ max 1 (card.difficulty - 1)
        exact le_max_left _ _
      · show max 1 (card.difficulty - 1) ≤ (10 : ℝ)
        exact max_le (by norm_num) (by linarith)

/-- Witness for the amended C2 at a concrete reviewed card of
difficulty 3 rated Again. -/
theorem c2_amended_witness :
    1 ≤ sampleCard.difficulty ∧ sampleCard.difficulty ≤ 10 ∧
    1 ≤ (defaultNoFuzz.repeatCard (fun _ => 0) sampleCard 0 .again).difficulty ∧
    (defaultNoFuzz.repeatCard (fun _ => 0) sampleCard 0 .again).difficulty ≤ 10 := by
  have h1 : 1 ≤ sampleCard.difficulty := by norm_num [sampleCard]
  have h10 : sampleCard.difficulty ≤ 10 := by norm_num [sampleCard]
  have h := c2_amended_difficulty_bounds defaultNoFuzz (fun _ => 0) sampleCard 0
    .again h1 h10
  exact ⟨h1, h10, h.1, h.2⟩

/-- Counterexample to claim C3: reviewing a New card (state 0, lapses 0)
with Again yields lapses = 1, not 0 — `_next_card` increments lapses on
every Again rating with no state check. -/
theorem c3_counterexample :
    newCard.state = 0 ∧ newCard.lapses = 0 ∧
    (defaultNoFuzz.repeatCard (fun _ => 0) newCard 0 .again).lapses = 1 := by
  refine ⟨rfl, rfl, ?_⟩
  show newCard.lapses + 1 = 1
  norm_num [newCard]

/-- Claim C3 as amended: lapses increments by exactly 1 when and only
when an Again rating is issued, on any card including a New one; hence
reviewing a New card (lapses = reps = 0) with Again at t0 yields
lapses = 1 (the first rating does count as a lapse), reps = 1,
scheduled_days = 1 and due = t0 + 1 day. -/
theorem c3_amended_lapses (f : FSRS) (fz : Rating → ℤ) (card : Card) (now : ℤ) :
    (∀ r, (f.repeatCard fz card now r).lapses
      = if r = Rating.again then card.lapses + 1 else card.lapses) ∧
    (card.lapses = 0 → card.reps = 0 →
      (f.repeatCard fz card now .again).lapses = 1 ∧
      (f.repeatCard fz card now .again).reps = 1 ∧
      (f.repeatCard fz card now .again).scheduled_days = 1 ∧
      (f.repeatCard fz card now .again).due = now + secPerDay) := by
  constructor
  · intro r
    cases r <;> simp [FSRS.repeatCard, FSRS.nextCard, repeatMutated]
  · intro hl hr
    refine ⟨?_, ?_, rfl, ?_⟩
    · show card.lapses + 1 = 1
      omega
    · show card.reps + 1 = 1
      omega
    · show now + 1 * secPerDay = now + secPerDay
      ring

/-- Witness for the amended C3 at a fresh New card reviewed at t0 = 0. -/
theorem c3_amended_witness :
    newCard.lapses = 0 ∧ newCard.reps = 0 ∧
    (defaultNoFuzz.repeatCard (fun _ => 0) newCard 0 .hard).lapses = 0 ∧
    (defaultNoFuzz.repeatCard (fun _ => 0) newCard 0 .again).lapses = 1 ∧
    (defaultNoFuzz.repeatCard (fun _ => 0) newCard 0 .again).reps = 1 ∧
    (defaultNoFuzz.repeatCard (fun _ => 0) newCard 0 .again).scheduled_days = 1 ∧
    (defaultNoFuzz.repeatCard (fun _ => 0) newCard 0 .again).due = 0 + secPerDay := by
  have hl : newCard.lapses = 0 := rfl
  have hr : newCard.reps = 0 := rfl
  have h := c3_amended_lapses defaultNoFuzz (fun _ => 0) newCard 0
  have h2 := h.2 hl hr
  refine ⟨hl, hr, ?_, h2.1, h2.2.1, h2.2.2.1, h2.2.2.2⟩
  have := h.1 Rating.hard
  simpa [hl] using this

/-- Hard on `hardCard` (previous interval 8 days) schedules
`max(1, int(8 * 1.2)) = int(9.6) = 9` days. -/
theorem hardCard_hard_sched :
    (defaultNoFuzz.repeatCard (fun _ => 0) hardCard 0 .hard).scheduled_days = 9 := by
  show max 1 (pyInt ((hardCard.scheduled_days : ℝ) * 1.2)) = 9
  have h8 : ((hardCard.scheduled_days : ℤ) : ℝ) = 8 := by norm_num [hardCard]
  rw [h8]
  rw [pyInt_eq (x := (8 : ℝ) * 1.2) (n := 9) (by norm_num) (by norm_num) (by norm_num)]
  norm_num

/-- Good on `hardCard` schedules exactly 1 day: the default retention
0.9 makes the stability-derived base interval non-positive. -/
theorem hardCard_good_sched :
    (defaultNoFuzz.repeatCard (fun _ => 0) hardCard 0 .good).scheduled_days = 1 := by
  show defaultNoFuzz.nextInterval 0 (repeatMutated hardCard 0) = 1
  apply nextInterval_eq_one
  · norm_num [defaultNoFuzz]
  · norm_num [defaultNoFuzz]
  · norm_num [repeatMutated, hardCard]

/-- Counterexample to claim C4: the code truncates with `int(...)`
rather than rounding, so the card of concrete scenario 3 (previous
scheduled_days = 8) rated Hard gets `int(9.6) = 9` days, not
`round(9.6) = 10`. -/
theorem c4_counterexample :
    hardCard.scheduled_days = 8 ∧
    (defaultNoFuzz.repeatCard (fun _ => 0) hardCard 0 .hard).scheduled_days = 9 ∧
    (defaultNoFuzz.repeatCard (fun _ => 0) hardCard 0 .hard).scheduled_days ≠ 10 := by
  refine ⟨rfl, hardCard_hard_sched, ?_⟩
  rw [hardCard_hard_sched]
  norm_num

/-- Claim C4 as amended: a Hard rating schedules
`max(1, int(previous_scheduled_days * 1.2))` days, where `int` truncates
toward zero, independently of the freshly computed stability-derived
interval; in particular a previous interval of 8 days yields
`max(1, int(9.6)) = 9` days. -/
theorem c4_amended_hard_interval (f : FSRS) (fz : Rating → ℤ) (card : Card) (now : ℤ) :
    (f.repeatCard fz card now .hard).scheduled_days
      = max 1 (pyInt ((card.scheduled_days : ℝ) * 1.2)) ∧
    (card.scheduled_days = 8 → (f.repeatCard fz card now .hard).scheduled_days = 9) := by
  constructor
  · rfl
  · intro h8
    show max 1 (pyInt ((card.scheduled_days : ℝ) * 1.2)) = 9
    rw [h8]
    rw [pyInt_eq (x := ((8 : ℤ) : ℝ) * 1.2) (n := 9) (by norm_num) (by norm_num)
      (by norm_num)]
    norm_num

/-- Witness for the amended C4 at the card of concrete scenario 3. -/
theorem c4_amended_witness :
    hardCard.scheduled_days = 8 ∧
    (defaultNoFuzz.repeatCard (fun _ => 0) hardCard 0 .hard).scheduled_days = 9 :=
  ⟨rfl, (c4_amended_hard_interval defaultNoFuzz (fun _ => 0) hardCard 0).2 rfl⟩

/-- Counterexample to claim C5: with `now` one hour before
`last_review`, `repeat` computes `elapsed_days = (now - last_review).days
= -1` and stores it on the card — there is no `max(0, ...)` clamp, so
the negative value propagates into the memory-model computation. -/
theorem c5_counterexample :
    skewCard.last_review = some 3600 ∧
    (repeatMutated skewCard 0).elapsed_days = -1 ∧
    (repeatMutated skewCard 0).elapsed_days ≠ max 0 (tdDays (0 - 3600)) := by
  refine ⟨rfl, ?_, ?_⟩ <;> decide

/-- Claim C5 as amended: for a previously reviewed card with a last
review timestamp, the elapsed days used by a review equal
`floor((now - last_review).days)` with no clamping; when `now` precedes
`last_review` the value is negative and is propagated unchanged. -/
theorem c5_amended_elapsed (card : Card) (now lr : ℤ)
    (hstate : card.state ≠ 0) (hlr : card.last_review = some lr) :
    (repeatMutated card now).elapsed_days = Int.fdiv (now - lr) secPerDay := by
  simp [repeatMutated, repeatElapsed, hstate, hlr, tdDays]

/-- Witness for the amended C5 at the clock-skew card: one hour of skew
gives elapsed_days = -1. -/
theorem c5_amended_witness :
    skewCard.state ≠ 0 ∧ skewCard.last_review = some 3600 ∧
    (repeatMutated skewCard 0).elapsed_days = Int.fdiv (0 - 3600) secPerDay := by
  refine ⟨by decide, rfl, ?_⟩
  exact c5_amended_elapsed skewCard 0 3600 (by decide) rfl

/-- Counterexample to claim C6: `repeat` mutates the caller's input card
— after the call, the passed-in card object is no longer equal to its
pre-call value (its reps field has been incremented in place). -/
theorem c6_counterexample :
    (defaultNoFuzz.repeatAll (fun _ => 0) sampleCard 0).1 ≠ sampleCard ∧
    (defaultNoFuzz.repeatAll (fun _ => 0) sampleCard 0).1.reps = sampleCard.reps + 1 := by
  constructor
  · intro h
    have h2 := congrArg Card.reps h
    have h3 : sampleCard.reps + 1 = sampleCard.reps := h2
    omega
  · rfl

/-- Claim C6 as amended: the review operation has no side effects beyond
its return values and the in-place update of the caller's card object:
`repeat` overwrites the input card's elapsed_days, sets
`last_review := now` and increments reps in place, while its stability,
difficulty, scheduled_days, lapses, state and due fields are left
unchanged; the per-rating result cards are deep copies, independent of
the caller's object. -/
theorem c6_amended_mutation (f : FSRS) (fz : Rating → ℤ) (card : Card) (now : ℤ) :
    (f.repeatAll fz card now).1.stability = card.stability ∧
    (f.repeatAll fz card now).1.difficulty = card.difficulty ∧
    (f.repeatAll fz card now).1.scheduled_days = card.scheduled_days ∧
    (f.repeatAll fz card now).1.lapses = card.lapses ∧
    (f.repeatAll fz card now).1.state = card.state ∧
    (f.repeatAll fz card now).1.due = card.due ∧
    (f.repeatAll fz card now).1.reps = card.reps + 1 ∧
    (f.repeatAll fz card now).1.last_review = some now ∧
    (f.repeatAll fz card now).1.elapsed_days = repeatElapsed card now ∧
    (∀ r, ((f.repeatAll fz card now).2 r).1 = f.repeatCard fz card now r) :=
  ⟨rfl, rfl, rfl, rfl, rfl, rfl, rfl, rfl, rfl, fun _ => rfl⟩

/-- Counterexample to claim C7: on the card of concrete scenario 3 under
the default configuration with fuzz disabled, Good schedules 1 day while
Hard schedules 9 days, so interval(Good) ≥ interval(Hard) fails. -/
theorem c7_counterexample :
    (defaultNoFuzz.repeatCard (fun _ => 0) hardCard 0 .good).scheduled_days = 1 ∧
    (defaultNoFuzz.repeatCard (fun _ => 0) hardCard 0 .hard).scheduled_days = 9 ∧
    ¬((defaultNoFuzz.repeatCard (fun _ => 0) hardCard 0 .hard).scheduled_days
      ≤ (defaultNoFuzz.repeatCard (fun _ => 0) hardCard 0 .good).scheduled_days) := by
  refine ⟨hardCard_good_sched, hardCard_hard_sched, ?_⟩
  rw [hardCard_good_sched, hardCard_hard_sched]
  norm_num

/-- Claim C7 as amended: for a fixed prior card state and fixed now,
with `0 < request_retention < 1`, a non-negative stability and fuzz
disabled, Again yields exactly 1 day and interval(Easy) ≥ interval(Good)
holds (both equal 1 day); but interval(Good) ≥ interval(Hard) fails in
general — instead interval(Hard) ≥ interval(Good), with Hard strictly
larger whenever the previous scheduled interval is at least 2 days. -/
theorem c7_amended_rating_intervals (f : FSRS) (fz : Rating → ℤ) (card : Card)
    (now : ℤ) (h0 : 0 < f.request_retention) (h1 : f.request_retention < 1)
    (hs : 0 ≤ card.stability) (_hf : f.enable_fuzz = false) :
    (f.repeatCard fz card now .again).scheduled_days = 1 ∧
    (f.repeatCard fz card now .good).scheduled_days = 1 ∧
    (f.repeatCard fz card now .easy).scheduled_days = 1 ∧
    (f.repeatCard fz card now .good).scheduled_days
      ≤ (f.repeatCard fz card now .easy).scheduled_days ∧
    (f.repeatCard fz card now .good).scheduled_days
      ≤ (f.repeatCard fz card now .hard).scheduled_days ∧
    (2 ≤ card.scheduled_days →
      (f.repeatCard fz card now .good).scheduled_days
        < (f.repeatCard fz card now .hard).scheduled_days) := by
  have hmut : (repeatMutated card now).stability = card.stability := rfl
  have hgood : (f.repeatCard fz card now .good).scheduled_days = 1 := by
    show f.nextInterval (fz .good) (repeatMutated card now) = 1
    exact nextInterval_eq_one _ _ _ h0 h1 (by rw [hmut]; exact hs)
  have heasy : (f.repeatCard fz card now .easy).scheduled_days = 1 := by
    show pyInt ((f.nextInterval (fz .easy) (repeatMutated card now) : ℝ) * 1.3) = 1
    rw [nextInterval_eq_one _ _ _ h0 h1 (by rw [hmut]; exact hs)]
    exact pyInt_eq (by norm_num) (by norm_num) (by norm_num)
  have hhard : (f.repeatCard fz card now .hard).scheduled_days
      = max 1 (pyInt ((card.scheduled_days : ℝ) * 1.2)) := rfl
  refine ⟨rfl, hgood, heasy, ?_, ?_, ?_⟩
  · rw [hgood, heasy]
  · rw [hgood, hhard]
    exact le_max_left _ _
  · intro h2
    rw [hgood, hhard]
    have h2r : (2 : ℝ) ≤ (card.scheduled_days : ℝ) := by exact_mod_cast h2
    have hge : (2 : ℝ) ≤ (card.scheduled_days : ℝ) * 1.2 := by nlinarith
    have : (2 : ℤ) ≤ pyInt ((card.scheduled_days : ℝ) * 1.2) := by
      rw [pyInt_of_nonneg (by linarith)]
      exact Int.le_floor.mpr (by exact_mod_cast hge)
    omega

/-- Witness for the amended C7 at the card of concrete scenario 3 under
the default configuration with fuzz disabled. -/
theorem c7_amended_witness :
    0 < defaultNoFuzz.request_retention ∧ defaultNoFuzz.request_retention < 1 ∧
    0 ≤ hardCard.stability ∧ defaultNoFuzz.enable_fuzz = false ∧
    2 ≤ hardCard.scheduled_days ∧
    (defaultNoFuzz.repeatCard (fun _ => 0) hardCard 0 .again).scheduled_days = 1 ∧
    (defaultNoFuzz.repeatCard (fun _ => 0) hardCard 0 .good).scheduled_days
      < (defaultNoFuzz.repeatCard (fun _ => 0) hardCard 0 .hard).scheduled_days := by
  have h0 : 0 < defaultNoFuzz.request_retention := by norm_num [defaultNoFuzz]
  have h1 : defaultNoFuzz.request_retention < 1 := by norm_num [defaultNoFuzz]
  have hs : 0 ≤ hardCard.stability := by norm_num [hardCard]
  have h2 : (2 : ℤ) ≤ hardCard.scheduled_days := by decide
  have h := c7_amended_rating_intervals defaultNoFuzz (fun _ => 0) hardCard 0
    h0 h1 hs rfl
  exact ⟨h0, h1, hs, rfl, h2, h.1, h.2.2.2.2.2 h2⟩

/-- Counterexample to claim C8: `_calculate_stability` applies no
positive floor — with a configuration whose growth factors are -5, a
reviewed card of stability 1 and difficulty 1 rated Good gets stability
`1 * (1 + (-5) * (11 - 1) * 1) = -49`, which is negative and in
particular below any small positive clamp such as 0.1. -/
theorem c8_counterexample :
    0 < c8Card.stability ∧
    negFSRS.calculateStability c8Card .good = -49 ∧
    negFSRS.calculateStability c8Card .good < 0.1 := by
  have hR : retrievability c8Card.elapsed_days c8Card.stability = 1 := by
    norm_num [retrievability, c8Card]
  have hval : negFSRS.calculateStability c8Card .good = -49 := by
    show stabilityUpdate negFSRS c8Card .good = -49
    unfold stabilityUpdate
    rw [hR]
    norm_num [stabilityFactor, negFSRS, c8Card]
  refine ⟨by norm_num [c8Card], hval, ?_⟩
  rw [hval]; norm_num

/-- Claim C8 as amended: the stability update applies no clamp at all; a
negative configured growth factor can drive stability negative (see the
counterexample), but whenever the rating's growth factor is
non-negative, the card's difficulty is at most 11, elapsed_days is
non-negative and the prior stability is positive, the updated stability
is at least the prior stability and hence strictly positive. -/
theorem c8_amended_stability_positive (f : FSRS) (card : Card) (r : Rating)
    (hstate : card.state ≠ 0) (hs : 0 < card.stability)
    (he : 0 ≤ card.elapsed_days) (hd : card.difficulty ≤ 11)
    (hw : 0 ≤ stabilityFactor f r) :
    card.stability ≤ f.calculateStability card r ∧
    0 < f.calculateStability card r := by
  have hR : 0 < retrievability card.elapsed_days card.stability :=
    retrievability_pos hs he
  have hcs : f.calculateStability card r = stabilityUpdate f card r := by
    unfold FSRS.calculateStability
    exact if_neg hstate
  have hmul : 0 ≤ stabilityFactor f r * (11 - card.difficulty) *
      retrievability card.elapsed_days card.stability :=
    mul_nonneg (mul_nonneg hw (by linarith)) hR.le
  rw [hcs]
  unfold stabilityUpdate
  constructor
  · nlinarith
  · nlinarith

/-- Witness for the amended C8 at the all-ones configuration and a
concrete reviewed card of stability 1. -/
theorem c8_amended_witness :
    c8Card.state ≠ 0 ∧ 0 < c8Card.stability ∧ 0 ≤ c8Card.elapsed_days ∧
    c8Card.difficulty ≤ 11 ∧ 0 ≤ stabilityFactor onesFSRS .good ∧
    0 < onesFSRS.calculateStability c8Card .good := by
  have hstate : c8Card.state ≠ 0 := by decide
  have hs : 0 < c8Card.stability := by norm_num [c8Card]
  have he : 0 ≤ c8Card.elapsed_days := by decide
  have hd : c8Card.difficulty ≤ 11 := by norm_num [c8Card]
  have hw : 0 ≤ stabilityFactor onesFSRS .good := by
    norm_num [stabilityFactor, onesFSRS]
  exact ⟨hstate, hs, he, hd, hw,
    (c8_amended_stability_positive onesFSRS c8Card .good hstate hs he hd hw).2⟩

end Suca
